import Mathlib

/-
Verification of the EdgeQL backtesting engine (nodes/python/BacktestNode.py)
against its natural-language specification.

The engine is embedded shallowly: prices, money and signals are rationals
(Python floats), timestamps are naturals, the per-run mutable fields of the
BacktestNode object (capital, current_position, trades, equity_curve) become
an explicit EngineState threaded through the per-bar fold.  Division is
total in the rational model (x / 0 = 0) where Python would raise
ZeroDivisionError; every theorem below that depends on a quotient carries
positivity hypotheses that rule the degenerate case out.
-/

set_option maxRecDepth 1600

namespace EdgeQL

/-- Parameters of the Backtest node (class BacktestParams, BacktestNode.py
lines 27-55).  The pydantic validators (initial_capital > 0, commission ≥ 0,
slippage ≥ 0, 0 < position_size ≤ 1) reject bad configurations at
construction; they appear below as hypotheses wherever a theorem needs
them.  max_positions is accepted and never read by the engine. -/
structure BacktestParams where
  initial_capital : ℚ := 10000
  commission : ℚ := 1 / 1000
  slippage : ℚ := 1 / 2000
  position_size : ℚ := 1
  max_positions : ℕ := 1
  deriving Repr, DecidableEq

/-- Individual trade record (class Trade, BacktestNode.py lines 58-71),
with timestamps as naturals.  The Python class has NO close_reason field:
_close_position receives a reason string, uses it in a log line, and never
stores it on the trade.  The specification data model nevertheless lists a
close_reason field on Trade, so this embedding carries one as an Option
that no code path ever assigns; it stays at its default none on every
trade the engine produces. -/
structure Trade where
  entry_time : ℕ
  exit_time : Option ℕ := none
  entry_price : ℚ
  exit_price : Option ℚ := none
  quantity : ℚ
  side : String
  pnl : Option ℚ := none
  return_pct : Option ℚ := none
  commission_paid : ℚ := 0
  slippage_cost : ℚ := 0
  status : String := "open"
  close_reason : Option String := none
  deriving Repr, DecidableEq

/-- One point of the equity curve: the dictionary appended per bar in
_run_backtest_simulation (BacktestNode.py lines 254-259). -/
structure EquityPoint where
  timestamp : ℕ
  equity : ℚ
  drawdown : ℚ
  position : String
  deriving Repr, DecidableEq

/-- One row of the combined dataframe consumed by the simulation loop:
timestamp, OHLCV columns and the signal column. -/
structure MarketBar where
  timestamp : ℕ
  open_price : ℚ
  high : ℚ
  low : ℚ
  close : ℚ
  volume : ℚ
  signal : ℚ
  deriving Repr, DecidableEq

/-- The run-local mutable state of a BacktestNode instance: capital,
current_position, trades, equity_curve (BacktestNode.py lines 99-102,
reset at lines 237-240). -/
structure EngineState where
  capital : ℚ
  current_position : Option Trade := none
  trades : List Trade := []
  equity_curve : List EquityPoint := []
  deriving Repr, DecidableEq

/-- State at the top of _run_backtest_simulation (lines 237-240). -/
def initState (p : BacktestParams) : EngineState :=
  { capital := p.initial_capital }

/-- Method _calculate_current_equity (lines 270-282): capital plus the
unrealized P&L of the live position at the close of this bar. -/
def calculate_current_equity (s : EngineState) (row : MarketBar) : ℚ :=
  match s.current_position with
  | none => s.capital
  | some pos =>
    let unrealized_pnl := (row.close - pos.entry_price) * pos.quantity
    let unrealized_pnl := if pos.side = "short" then -unrealized_pnl else unrealized_pnl
    s.capital + unrealized_pnl

/-- Method _calculate_current_drawdown (lines 284-290).  Python computes
max over the already-recorded equities with current_equity appended;
folding max over the recorded equities seeded with current_equity yields
the same value. -/
def calculate_current_drawdown (s : EngineState) (current_equity : ℚ) : ℚ :=
  if s.equity_curve = [] then 0
  else
    let peak_equity := (s.equity_curve.map (fun pt => pt.equity)).foldl max current_equity
    (peak_equity - current_equity) / peak_equity

/-- Method _enter_long_position (lines 311-329): sizes the position from
current capital, deducts the entry commission from capital, and installs
the open trade as the current position. -/
def enter_long_position (p : BacktestParams) (s : EngineState) (timestamp : ℕ) (price : ℚ) : EngineState :=
  let position_value := s.capital * p.position_size
  let commission_cost := position_value * p.commission
  let quantity := (position_value - commission_cost) / price
  let pos : Trade :=
    { entry_time := timestamp
      entry_price := price
      quantity := quantity
      side := "long"
      commission_paid := commission_cost
      slippage_cost := position_value * p.slippage }
  { s with current_position := some pos, capital := s.capital - commission_cost }

/-- Method _close_position (lines 331-373).  The reason argument is used
by the Python code only in a print statement; it is kept here to mirror
the call sites and is not recorded anywhere, exactly as in the source. -/
def close_position (p : BacktestParams) (s : EngineState) (row : MarketBar) (reason : String) : EngineState :=
  match s.current_position with
  | none => s
  | some pos =>
    let price := row.close
    let exit_price := if pos.side = "long" then price * (1 - p.slippage) else price * (1 + p.slippage)
    let pnl0 := (exit_price - pos.entry_price) * pos.quantity
    let pnl := if pos.side = "short" then -pnl0 else pnl0
    let exit_value := exit_price * pos.quantity
    let exit_commission := exit_value * p.commission
    let net_pnl := pnl - exit_commission
    let return_pct := net_pnl / (pos.entry_price * pos.quantity)
    let closed : Trade :=
      { pos with
          exit_time := some row.timestamp
          exit_price := some exit_price
          pnl := some net_pnl
          return_pct := some return_pct
          commission_paid := pos.commission_paid + exit_commission
          status := "closed" }
    { s with
        capital := s.capital + net_pnl
        trades := s.trades ++ [closed]
        current_position := none }

/-- Method _process_signal (lines 292-309): dispatch on the sign of the
signal value.  Any signal > 0 takes the buy branch and any signal < 0 the
sell branch; only the callers filter out signal == 0. -/
def process_signal (p : BacktestParams) (s : EngineState) (signal : ℚ) (row : MarketBar) : EngineState :=
  if 0 < signal then
    let execution_price := row.close * (1 + p.slippage)
    match s.current_position with
    | none => enter_long_position p s row.timestamp execution_price
    | some pos =>
      if pos.side = "short" then
        enter_long_position p (close_position p s row "signal_reversal") row.timestamp execution_price
      else s
  else if signal < 0 then
    match s.current_position with
    | some pos => if pos.side = "long" then close_position p s row "signal_exit" else s
    | none => s
  else s

/-- The equity-curve dictionary appended per bar (lines 254-259),
computed from the state BEFORE the signal of this bar is acted on. -/
def equity_point (s : EngineState) (row : MarketBar) : EquityPoint :=
  let current_equity := calculate_current_equity s row
  { timestamp := row.timestamp
    equity := current_equity
    drawdown := calculate_current_drawdown s current_equity
    position := if s.current_position.isSome then "long" else "flat" }

/-- The body of the per-bar loop in _run_backtest_simulation (lines
242-263): append the equity-curve point, then process a non-zero
signal. -/
def process_bar (p : BacktestParams) (s : EngineState) (row : MarketBar) : EngineState :=
  let s1 := { s with equity_curve := s.equity_curve ++ [equity_point s row] }
  if row.signal ≠ 0 then process_signal p s1 row.signal row else s1

/-- Method _run_backtest_simulation (lines 235-268): fold the per-bar body
over the rows, then force-close a still-open position against the last row
(Python data.iloc[-1]; a live position implies the row list is nonempty,
so the none branch of getLast? is unreachable). -/
def run_backtest_simulation (p : BacktestParams) (data : List MarketBar) : EngineState :=
  let s := data.foldl (process_bar p) (initState p)
  if s.current_position.isSome then
    match data.getLast? with
    | some last_row => close_position p s last_row "end_of_period"
    | none => s
  else s

/-- Ordering of bars by timestamp, the sort key of
combined_data.sort_values("timestamp") (line 231). -/
def barLE (a b : MarketBar) : Prop := a.timestamp ≤ b.timestamp

instance : DecidableRel barLE := fun a b => inferInstanceAs (Decidable (a.timestamp ≤ b.timestamp))

instance : IsTotal MarketBar barLE := ⟨fun a b => Nat.le_total a.timestamp b.timestamp⟩

instance : IsTrans MarketBar barLE := ⟨fun _ _ _ h h2 => Nat.le_trans h h2⟩

/-- Method _merge_signals_and_prices (lines 204-233) on the path actually
taken by the node: signals and prices arrive as one combined dataframe
(_extract_input_data returns the same frame twice), the signal column is
already present, so the method reduces to sort_values("timestamp") followed
by reset_index.  Sorting is modelled by insertion sort; it agrees with any
correct sort whenever timestamps are duplicate-free, which the spec
requires of the input. -/
def merge_signals_and_prices (data : List MarketBar) : List MarketBar :=
  List.insertionSort barLE data

/-- Expanding maximum, pandas equity_series.expanding().max() (line 396):
element i of the result is the maximum of elements 0..i of the input. -/
def expandingMax : List ℚ → List ℚ
  | [] => []
  | x :: xs => x :: (expandingMax xs).map (fun y => max x y)

/-- Minimum of a series, pandas Series.min() (line 398); only ever applied
to a nonempty series here (the equity curve is nonempty past the guard). -/
def listMin : List ℚ → ℚ
  | [] => 0
  | x :: xs => xs.foldl min x

/-- Method _calculate_max_drawdown_duration (lines 435-450): length of the
longest contiguous run of bars with equity strictly below the running
peak. -/
def calculate_max_drawdown_duration (equity_series : List ℚ) : ℕ :=
  let running_max := expandingMax equity_series
  let is_dd := List.zipWith (fun e rm => decide (e < rm)) equity_series running_max
  (is_dd.foldl
    (fun (acc : ℕ × ℕ) b =>
      if b then (max acc.1 (acc.2 + 1), acc.2 + 1) else (acc.1, 0))
    (0, 0)).1

/-- Results record (class BacktestResults, lines 73-87).  annual_return
(line 386) and sharpe_ratio (line 393) are real-valued power and square
root computations over floats, outside this rational embedding, and no
statement below concerns them; they are omitted from the record. -/
structure BacktestResults where
  total_return : ℚ
  max_drawdown : ℚ
  max_drawdown_duration : ℕ
  num_trades : ℕ
  win_rate : ℚ
  profit_factor : ℚ
  avg_trade_return : ℚ
  trades : List Trade
  equity_curve : List EquityPoint
  final_capital : ℚ
  deriving Repr, DecidableEq

/-- The pnl field of a ledger trade.  Every trade appended to the ledger
went through close_position and has pnl = some _, so the default is never
consulted; Python reads t.pnl directly. -/
def tradePnl (t : Trade) : ℚ := t.pnl.getD 0

/-- Method _calculate_performance_metrics (lines 375-433): raises on an
empty equity curve, otherwise reads final capital off the last equity
point and computes drawdown and trade statistics.  The Python if/else
block guarding the three trade statistics on a nonempty ledger (lines
404-418) is inlined as one conditional per field; the guarded
computations are pure, so the two shapes coincide. -/
def calculate_performance_metrics (p : BacktestParams) (s : EngineState) : Except String BacktestResults :=
  if h : s.equity_curve = [] then .error "No equity curve data available"
  else
    let final_capital := (s.equity_curve.getLast h).equity
    let equity_series := s.equity_curve.map (fun pt => pt.equity)
    let winning_trades := s.trades.filter (fun t => 0 < tradePnl t)
    let losing_trades := s.trades.filter (fun t => tradePnl t ≤ 0)
    let total_wins := if winning_trades = [] then 0 else (winning_trades.map tradePnl).sum
    let total_losses := if losing_trades = [] then 1 else |(losing_trades.map tradePnl).sum|
    .ok
      { total_return := (final_capital - p.initial_capital) / p.initial_capital
        max_drawdown :=
          |listMin (List.zipWith (fun e rm => (e - rm) / rm) equity_series (expandingMax equity_series))|
        max_drawdown_duration := calculate_max_drawdown_duration equity_series
        num_trades := s.trades.length
        win_rate :=
          if s.trades = [] then 0 else (winning_trades.length : ℚ) / (s.trades.length : ℚ)
        profit_factor :=
          if s.trades = [] then 0 else if 0 < total_losses then total_wins / total_losses else 0
        avg_trade_return :=
          if s.trades = [] then 0
          else (s.trades.map (fun t => t.return_pct.getD 0)).sum / (s.trades.length : ℚ)
        trades := s.trades
        equity_curve := s.equity_curve
        final_capital := final_capital }

/-- Method run (lines 104-167) restricted to the engine proper: merge,
simulate, compute metrics.  Python wraps any raised error into a
RuntimeError; here errors surface as Except.error. -/
def runEngine (p : BacktestParams) (data : List MarketBar) : Except String BacktestResults :=
  let combined := merge_signals_and_prices data
  let s := run_backtest_simulation p combined
  calculate_performance_metrics p s

/-- The independent recomputation of max_drawdown the specification asks for, written
from its words: "abs(min over i of (equity[i] − running_max(equity[0..i]))
/ running_max(equity[0..i]))".  Used to compare against the value the code
produces and against the per-point drawdowns stored in the equity
curve. -/
def specMaxDrawdown (es : List ℚ) : ℚ :=
  |listMin (List.zipWith (fun e rm => (e - rm) / rm) es (expandingMax es))|

/-- Sum of the pnl fields over a trade ledger. -/
def sumPnl (ts : List Trade) : ℚ := (ts.map tradePnl).sum

/-- The per-point drawdowns that the incremental computation stores while
the curve is built, written as a function of the equity values alone:
element i is (peak − equity[i]) / peak with peak the maximum of
equities 0..i. -/
def ddOfList (es : List ℚ) : List ℚ :=
  List.zipWith (fun e rm => (rm - e) / rm) es (expandingMax es)

/-- Run-state invariant: every trade on the ledger is closed, and any
live position is a long with no close_reason recorded (the engine never
opens a short, and nothing ever assigns close_reason). -/
def StateInv (s : EngineState) : Prop :=
  (∀ t ∈ s.trades, t.status = "closed") ∧
  (∀ pos, s.current_position = some pos → pos.side = "long" ∧ pos.close_reason = none)

/-- Coherence of the equity curve: the stored per-point drawdowns are
exactly the incremental drawdowns of the stored equities. -/
def CurveInv (s : EngineState) : Prop :=
  s.equity_curve.map (fun pt => pt.drawdown) =
    ddOfList (s.equity_curve.map (fun pt => pt.equity))

/-- Number of simultaneously open positions held by a state: open trades
on the ledger plus the live position slot. -/
def open_position_count (s : EngineState) : ℕ :=
  s.trades.countP (fun t => t.status == "open") +
    (if s.current_position.isSome then 1 else 0)

/-- Concrete test fixtures used by witnesses and counterexamples. -/
def testBar (t : ℕ) (c sig : ℚ) : MarketBar :=
  { timestamp := t, open_price := c, high := c, low := c, close := c, volume := 1, signal := sig }

/-- Fixture parameters: commission 10 percent, no slippage, full sizing. -/
def P1 : BacktestParams :=
  { initial_capital := 10000, commission := 1 / 10, slippage := 0, position_size := 1 }

/-- Fixture parameters with zero commission and zero slippage. -/
def P0 : BacktestParams :=
  { initial_capital := 10000, commission := 0, slippage := 0, position_size := 1 }

/-- Two bars at constant price 100: buy on the first, sell on the second. -/
def B1 : List MarketBar := [testBar 0 100 1, testBar 1 100 (-1)]

/-- Two bars in DESCENDING timestamp order, no signals. -/
def B2 : List MarketBar := [testBar 2 100 0, testBar 1 100 0]

/-- Prefix and last bar of a run that buys on the first bar and then
receives no further signal, so the position is still live at the end. -/
def BS3 : List MarketBar := [testBar 0 100 1]

/-- The final bar of the B3 fixture, signal 0. -/
def b3 : MarketBar := testBar 1 100 0

/-- Buy on bar 0, no signal on bar 1: ends with a live position. -/
def B3 : List MarketBar := BS3 ++ [b3]

/-- The position the P1/BS3 run holds after its first bar: sized from
10000 capital at 10 percent commission, 100 entry. -/
def POS1 : Trade :=
  { entry_time := 0, entry_price := 100, quantity := 90, side := "long",
    commission_paid := 1000, slippage_cost := 0 }

/-- A state holding the POS1 long position, used to exercise the
close/no-op transitions directly. -/
def ST1 : EngineState :=
  { capital := 9000, current_position := some POS1, trades := [],
    equity_curve := [{ timestamp := 0, equity := 10000, drawdown := 0, position := "flat" }] }

/-- A closed winning trade fixture. -/
def TW : Trade :=
  { entry_time := 0, entry_price := 100, quantity := 1, side := "long",
    pnl := some 5, return_pct := some (1 / 20), status := "closed" }

/-- A closed break-even trade fixture (pnl exactly 0). -/
def TZ : Trade :=
  { entry_time := 2, entry_price := 100, quantity := 1, side := "long",
    pnl := some 0, return_pct := some 0, status := "closed" }

/-- A flat state with one winning trade and a one-point equity curve. -/
def SW : EngineState :=
  { capital := 10005, trades := [TW],
    equity_curve := [{ timestamp := 0, equity := 10000, drawdown := 0, position := "flat" }] }

/-- A flat state whose ledger holds a winner and a break-even trade. -/
def SZ : EngineState :=
  { capital := 10005, trades := [TW, TZ],
    equity_curve := [{ timestamp := 0, equity := 10000, drawdown := 0, position := "flat" }] }

/-- A flat state with an empty ledger and a one-point equity curve. -/
def SE : EngineState :=
  { capital := 10000, trades := [],
    equity_curve := [{ timestamp := 0, equity := 10000, drawdown := 0, position := "flat" }] }

/-- The results of the fee-free buy-then-sell run on B1. -/
def R0 : BacktestResults := (runEngine P0 B1).toOption.get (by decide)

/-- The results of the P1 run on B3 (buy, then end-of-period close). -/
def R3 : BacktestResults := (runEngine P1 B3).toOption.get (by decide)

/-- The metrics computed over the single-winner state SW. -/
def RW : BacktestResults := (calculate_performance_metrics P1 SW).toOption.get (by decide)

/-- The metrics computed over the empty-ledger state SE. -/
def RE : BacktestResults := (calculate_performance_metrics P1 SE).toOption.get (by decide)

/-- The metrics computed over the winner-plus-break-even state SZ. -/
def RZ : BacktestResults := (calculate_performance_metrics P1 SZ).toOption.get (by decide)

/-- Invariance of a predicate under a left fold. -/
theorem foldl_inv {α β : Type} {P : α → Prop} {f : α → β → α}
    (hf : ∀ s b, P s → P (f s b)) :
    ∀ (l : List β) (s : α), P s → P (l.foldl f s) := by
  intro l
  induction l with
  | nil => exact fun s h => h
  | cons b l ih => exact fun s h => ih (f s b) (hf s b h)

/-- Entering a position does not touch the equity curve. -/
theorem enter_long_equity_curve (p : BacktestParams) (s : EngineState) (ts : ℕ) (price : ℚ) :
    (enter_long_position p s ts price).equity_curve = s.equity_curve := rfl

/-- Closing a position does not touch the equity curve. -/
theorem close_position_equity_curve (p : BacktestParams) (s : EngineState) (row : MarketBar)
    (reason : String) :
    (close_position p s row reason).equity_curve = s.equity_curve := by
  unfold close_position
  cases s.current_position <;> rfl

/-- Signal processing does not touch the equity curve. -/
theorem process_signal_equity_curve (p : BacktestParams) (s : EngineState) (sig : ℚ)
    (row : MarketBar) :
    (process_signal p s sig row).equity_curve = s.equity_curve := by
  unfold process_signal
  split
  · cases hc : s.current_position with
    | none => simp only [hc]; exact enter_long_equity_curve ..
    | some pos =>
      simp only [hc]
      split
      · rw [enter_long_equity_curve, close_position_equity_curve]
      · rfl
  · split
    · cases hc : s.current_position with
      | none => simp only [hc]
      | some pos =>
        simp only [hc]
        split
        · exact close_position_equity_curve ..
        · rfl
    · rfl

/-- The equity curve after one bar is the old curve with the point of
this bar appended. -/
theorem process_bar_equity_curve (p : BacktestParams) (s : EngineState) (row : MarketBar) :
    (process_bar p s row).equity_curve = s.equity_curve ++ [equity_point s row] := by
  unfold process_bar
  split
  · rw [process_signal_equity_curve]
  · rfl

/-- A buy signal while a position with non-short side is held is a
no-op: the state is returned unchanged (BacktestNode.py lines 298-304,
where only a short position triggers the reversal branch). -/
theorem process_signal_buy_held (p : BacktestParams) (s : EngineState) (sig : ℚ)
    (row : MarketBar) (pos : Trade) (hpos : s.current_position = some pos)
    (hside : pos.side ≠ "short") (hsig : 0 < sig) :
    process_signal p s sig row = s := by
  unfold process_signal
  rw [if_pos hsig, hpos]
  simp [hside]

/-- A sell signal while flat is a no-op (lines 306-309: the close branch
requires a live long position). -/
theorem process_signal_sell_flat (p : BacktestParams) (s : EngineState) (sig : ℚ)
    (row : MarketBar) (hpos : s.current_position = none) (hsig : sig < 0) :
    process_signal p s sig row = s := by
  unfold process_signal
  rw [if_neg (asymm hsig), if_pos hsig, hpos]

/-- Explicit form of closing a long position: the resulting state, with
the sealed trade spelled out.  pnl is the gross P&L minus the EXIT
commission only; the entry commission was deducted from capital at entry
and never enters pnl. -/
theorem close_position_long (p : BacktestParams) (s : EngineState) (row : MarketBar)
    (reason : String) (pos : Trade) (hpos : s.current_position = some pos)
    (hside : pos.side = "long") :
    close_position p s row reason =
      { s with
          capital := s.capital +
            ((row.close * (1 - p.slippage) - pos.entry_price) * pos.quantity -
              row.close * (1 - p.slippage) * pos.quantity * p.commission)
          trades := s.trades ++
            [{ pos with
                exit_time := some row.timestamp
                exit_price := some (row.close * (1 - p.slippage))
                pnl := some ((row.close * (1 - p.slippage) - pos.entry_price) * pos.quantity -
                  row.close * (1 - p.slippage) * pos.quantity * p.commission)
                return_pct := some
                  (((row.close * (1 - p.slippage) - pos.entry_price) * pos.quantity -
                    row.close * (1 - p.slippage) * pos.quantity * p.commission) /
                    (pos.entry_price * pos.quantity))
                commission_paid := pos.commission_paid +
                  row.close * (1 - p.slippage) * pos.quantity * p.commission
                status := "closed" }]
          current_position := none } := by
  unfold close_position
  rw [hpos]
  have h1 : (pos.side = "long") = True := by simp [hside]
  have h2 : (pos.side = "short") = False := by simp [hside]
  simp only [h1, h2, if_true, if_false]

/-- Entering preserves the run-state invariant: the new live position is
a long, and the ledger is untouched. -/
theorem stateInv_enter_long (p : BacktestParams) (s : EngineState) (ts : ℕ) (price : ℚ)
    (h : StateInv s) : StateInv (enter_long_position p s ts price) := by
  refine ⟨h.1, ?_⟩
  intro pos hpos
  simp only [enter_long_position, Option.some.injEq] at hpos
  rw [← hpos]
  exact ⟨rfl, rfl⟩

/-- Closing preserves the run-state invariant: the sealed trade is
appended with status closed and the position slot is cleared. -/
theorem stateInv_close (p : BacktestParams) (s : EngineState) (row : MarketBar)
    (reason : String) (h : StateInv s) : StateInv (close_position p s row reason) := by
  unfold close_position
  cases hc : s.current_position with
  | none => exact h
  | some pos =>
    constructor
    · intro t ht
      rcases List.mem_append.mp ht with hm | hm
      · exact h.1 t hm
      · rw [List.mem_singleton.mp hm]
    · intro pos2 hp2
      exact absurd hp2 (by simp)

/-- Signal processing preserves the run-state invariant. -/
theorem stateInv_process_signal (p : BacktestParams) (s : EngineState) (sig : ℚ)
    (row : MarketBar) (h : StateInv s) : StateInv (process_signal p s sig row) := by
  unfold process_signal
  split
  · cases hc : s.current_position with
    | none => simp only [hc]; exact stateInv_enter_long p s row.timestamp _ h
    | some pos =>
      simp only [hc]
      split
      · exact stateInv_enter_long p _ row.timestamp _ (stateInv_close p s row _ h)
      · exact h
  · split
    · cases hc : s.current_position with
      | none => simp only [hc]; exact h
      | some pos =>
        simp only [hc]
        split
        · exact stateInv_close p s row _ h
        · exact h
    · exact h

/-- One bar of the loop preserves the run-state invariant. -/
theorem stateInv_process_bar (p : BacktestParams) (s : EngineState) (row : MarketBar)
    (h : StateInv s) : StateInv (process_bar p s row) := by
  unfold process_bar
  have h1 : StateInv { s with equity_curve := s.equity_curve ++ [equity_point s row] } :=
    ⟨h.1, h.2⟩
  split
  · exact stateInv_process_signal p _ row.signal row h1
  · exact h1

/-- The invariant holds at every state the per-bar fold reaches. -/
theorem stateInv_fold (p : BacktestParams) (data : List MarketBar) :
    StateInv (data.foldl (process_bar p) (initState p)) := by
  refine foldl_inv (fun s b h => stateInv_process_bar p s b h) data (initState p) ⟨?_, ?_⟩
  · intro t ht; exact absurd ht (List.not_mem_nil t)
  · intro pos hpos; exact absurd hpos (by simp [initState])

/-- The invariant holds for the final state of a whole simulation run,
forced close included. -/
theorem stateInv_run (p : BacktestParams) (data : List MarketBar) :
    StateInv (run_backtest_simulation p data) := by
  unfold run_backtest_simulation
  have h := stateInv_fold p data
  cases hl : data.getLast? with
  | none => simp only [hl]; split <;> exact h
  | some last_row =>
    simp only [hl]
    split
    · exact stateInv_close p _ last_row _ h
    · exact h

/-- A state satisfying the invariant holds at most one open position:
every ledger entry is closed, so only the live slot can count. -/
theorem open_position_count_le_one (s : EngineState) (h : StateInv s) :
    open_position_count s ≤ 1 := by
  unfold open_position_count
  have hz : s.trades.countP (fun t => t.status == "open") = 0 := by
    rw [List.countP_eq_zero]
    intro t ht
    simp [h.1 t ht]
  rw [hz]
  split <;> simp

/-- Capital accounting under zero commission: closing adds exactly the
recorded pnl to capital and to the ledger sum. -/
theorem capital_close (p : BacktestParams) (s : EngineState) (row : MarketBar)
    (reason : String) (c0 : ℚ) (h : s.capital = c0 + sumPnl s.trades) :
    (close_position p s row reason).capital =
      c0 + sumPnl (close_position p s row reason).trades := by
  unfold close_position
  cases hc : s.current_position with
  | none => exact h
  | some pos =>
    simp only [sumPnl, tradePnl, List.map_append, List.sum_append, List.map_cons,
      List.map_nil, List.sum_cons, List.sum_nil, Option.getD_some]
    rw [h]
    unfold sumPnl tradePnl
    ring

/-- Capital accounting under zero commission: entering costs nothing. -/
theorem capital_enter_zero_commission (p : BacktestParams) (s : EngineState) (ts : ℕ)
    (price : ℚ) (hc : p.commission = 0) (c0 : ℚ) (h : s.capital = c0 + sumPnl s.trades) :
    (enter_long_position p s ts price).capital =
      c0 + sumPnl (enter_long_position p s ts price).trades := by
  simp only [enter_long_position, hc, mul_zero, sub_zero]
  exact h

/-- Capital accounting under zero commission is preserved by one bar. -/
theorem capital_process_bar_zero_commission (p : BacktestParams) (hc : p.commission = 0)
    (s : EngineState) (row : MarketBar) (h : s.capital = p.initial_capital + sumPnl s.trades) :
    (process_bar p s row).capital = p.initial_capital + sumPnl (process_bar p s row).trades := by
  unfold process_bar
  have h1 : ({ s with equity_curve := s.equity_curve ++ [equity_point s row] } :
      EngineState).capital = p.initial_capital +
      sumPnl ({ s with equity_curve := s.equity_curve ++ [equity_point s row] } :
        EngineState).trades := h
  split
  · generalize ({ s with equity_curve := s.equity_curve ++ [equity_point s row] } :
      EngineState) = s1 at h1
    unfold process_signal
    split
    · cases hp : s1.current_position with
      | none =>
        simp only [hp]
        exact capital_enter_zero_commission p s1 row.timestamp _ hc _ h1
      | some pos =>
        simp only [hp]
        split
        · exact capital_enter_zero_commission p _ row.timestamp _ hc _
            (capital_close p s1 row _ _ h1)
        · exact h1
    · split
      · cases hp : s1.current_position with
        | none => simp only [hp]; exact h1
        | some pos =>
          simp only [hp]
          split
          · exact capital_close p s1 row _ _ h1
          · exact h1
      · exact h1
  · exact h1

/-- Capital equals initial capital plus the ledger pnl sum at every state
the fold reaches, when commission is zero. -/
theorem capital_fold_zero_commission (p : BacktestParams) (hc : p.commission = 0)
    (data : List MarketBar) :
    (data.foldl (process_bar p) (initState p)).capital =
      p.initial_capital + sumPnl ((data.foldl (process_bar p) (initState p)).trades) := by
  refine foldl_inv (fun s b h => capital_process_bar_zero_commission p hc s b h) data
    (initState p) ?_
  simp [initState, sumPnl]

/-- Rearranging the seed of a max fold: folding from max a b equals
taking max b of the fold from a. -/
theorem foldl_max_comm (l : List ℚ) (a b : ℚ) :
    l.foldl max (max a b) = max b (l.foldl max a) := by
  induction l generalizing a with
  | nil => exact max_comm a b
  | cons x l ih =>
    simp only [List.foldl_cons]
    rw [sup_right_comm a b x, ih (max a x)]

/-- The seed of a max fold is a lower bound of the fold. -/
theorem le_foldl_max (l : List ℚ) (a b : ℚ) (h : a ≤ b) : a ≤ l.foldl max b := by
  induction l generalizing b with
  | nil => exact h
  | cons x l ih => exact ih (max b x) (le_trans h (le_max_left b x))

/-- The expanding maximum of a list extended on the right. -/
theorem expandingMax_concat (es : List ℚ) (c : ℚ) :
    expandingMax (es ++ [c]) = expandingMax es ++ [es.foldl max c] := by
  induction es with
  | nil => rfl
  | cons x es ih =>
    show x :: (expandingMax (es ++ [c])).map (fun y => max x y) =
      (x :: (expandingMax es).map (fun y => max x y)) ++ [(x :: es).foldl max c]
    rw [ih, List.map_append, List.foldl_cons, foldl_max_comm es c x]
    rfl

/-- The expanding maximum preserves length. -/
theorem expandingMax_length (es : List ℚ) : (expandingMax es).length = es.length := by
  induction es with
  | nil => rfl
  | cons x es ih => simp only [expandingMax, List.length_cons, List.length_map, ih]

/-- The incremental drawdown list of a list extended on the right: one
new entry computed against the peak over the whole extended list. -/
theorem ddOfList_concat (es : List ℚ) (c : ℚ) :
    ddOfList (es ++ [c]) = ddOfList es ++ [(es.foldl max c - c) / es.foldl max c] := by
  unfold ddOfList
  rw [expandingMax_concat,
    List.zipWith_append _ es [c] (expandingMax es) [es.foldl max c] (expandingMax_length es).symm]
  rfl

/-- The stored per-point drawdown formula, uniform over the empty-curve
early return of _calculate_current_drawdown: the early 0 coincides with
the general (peak − e) / peak expression. -/
theorem calculate_current_drawdown_eq (s : EngineState) (e : ℚ) :
    calculate_current_drawdown s e =
      ((s.equity_curve.map fun pt => pt.equity).foldl max e - e) /
        (s.equity_curve.map fun pt => pt.equity).foldl max e := by
  unfold calculate_current_drawdown
  split
  · rename_i h
    rw [h]
    simp
  · rfl

/-- Curve coherence is preserved by one bar of the loop. -/
theorem curveInv_process_bar (p : BacktestParams) (s : EngineState) (row : MarketBar)
    (h : CurveInv s) : CurveInv (process_bar p s row) := by
  unfold CurveInv
  rw [process_bar_equity_curve]
  simp only [List.map_append, List.map_cons, List.map_nil]
  rw [ddOfList_concat, h]
  unfold equity_point
  simp only []
  rw [calculate_current_drawdown_eq]

/-- Curve coherence holds for the final state of a simulation run. -/
theorem curveInv_run (p : BacktestParams) (data : List MarketBar) :
    CurveInv (run_backtest_simulation p data) := by
  have h : CurveInv (data.foldl (process_bar p) (initState p)) := by
    refine foldl_inv (fun s b hs => curveInv_process_bar p s b hs) data (initState p) ?_
    simp [initState, CurveInv, ddOfList, expandingMax]
  unfold run_backtest_simulation
  cases hl : data.getLast? with
  | none => simp only [hl]; split <;> exact h
  | some last_row =>
    simp only [hl]
    split
    · unfold CurveInv
      rw [close_position_equity_curve]
      exact h
    · exact h

/-- The ratio series the metrics pass builds is the pointwise negation of
the incremental drawdown list. -/
theorem zipWith_dd_neg (es rms : List ℚ) :
    List.zipWith (fun e rm => (e - rm) / rm) es rms =
      (List.zipWith (fun e rm => (rm - e) / rm) es rms).map (fun x => -x) := by
  induction es generalizing rms with
  | nil => rfl
  | cons e es ih =>
    cases rms with
    | nil => rfl
    | cons rm rms =>
      simp only [List.zipWith_cons_cons, List.map_cons, ih]
      rw [← neg_div, neg_sub]

/-- Folding min over a negated list is the negation of folding max. -/
theorem foldl_min_neg (l : List ℚ) (a : ℚ) :
    (l.map (fun x => -x)).foldl min (-a) = -(l.foldl max a) := by
  induction l generalizing a with
  | nil => rfl
  | cons x l ih =>
    simp only [List.map_cons, List.foldl_cons]
    rw [min_neg_neg, ih]

/-- The value _calculate_performance_metrics derives from the equity
series equals the maximum of the incrementally stored drawdowns. -/
theorem specMaxDrawdown_eq_stored (es : List ℚ) (h : es ≠ []) :
    specMaxDrawdown es = (ddOfList es).foldl max 0 := by
  obtain ⟨e, es1, rfl⟩ := List.exists_cons_of_ne_nil h
  unfold specMaxDrawdown ddOfList
  rw [zipWith_dd_neg]
  have hhead : expandingMax (e :: es1) = e :: (expandingMax es1).map (fun y => max e y) := rfl
  rw [hhead]
  simp only [List.zipWith_cons_cons, List.map_cons, sub_self, zero_div, neg_zero, listMin]
  have hz : (0 : ℚ) = -0 := by norm_num
  rw [hz, foldl_min_neg, abs_neg, List.foldl_cons, max_self]
  exact abs_of_nonneg (le_foldl_max _ 0 0 le_rfl)

/-- A run over bars ++ [b] is the fold over all bars followed by the
end-of-period force close against b, exactly when a position is live. -/
theorem run_concat (p : BacktestParams) (bs : List MarketBar) (b : MarketBar) :
    run_backtest_simulation p (bs ++ [b]) =
      (if (process_bar p (bs.foldl (process_bar p) (initState p)) b).current_position.isSome then
        close_position p (process_bar p (bs.foldl (process_bar p) (initState p)) b) b
          "end_of_period"
      else process_bar p (bs.foldl (process_bar p) (initState p)) b) := by
  unfold run_backtest_simulation
  rw [List.foldl_append, List.getLast?_concat]
  rfl

/-- Elimination form of a successful metrics computation: the fields of
the result spelled out against the input state. -/
theorem metrics_ok_curve_ne_nil (p : BacktestParams) (s : EngineState) (r : BacktestResults)
    (hok : calculate_performance_metrics p s = .ok r) : s.equity_curve ≠ [] := by
  intro h
  unfold calculate_performance_metrics at hok
  rw [dif_pos h] at hok
  exact Except.noConfusion hok

/-- Field-level content of a successful metrics computation. -/
theorem metrics_ok_fields (p : BacktestParams) (s : EngineState) (r : BacktestResults)
    (hok : calculate_performance_metrics p s = .ok r) :
    r.trades = s.trades ∧ r.equity_curve = s.equity_curve ∧
    r.max_drawdown = specMaxDrawdown (s.equity_curve.map fun pt => pt.equity) ∧
    r.num_trades = s.trades.length ∧
    r.win_rate = (if s.trades = [] then 0
      else ((s.trades.filter fun t => 0 < tradePnl t).length : ℚ) / (s.trades.length : ℚ)) ∧
    r.profit_factor = (if s.trades = [] then 0
      else
        if 0 < (if (s.trades.filter fun t => tradePnl t ≤ 0) = [] then 1
            else |((s.trades.filter fun t => tradePnl t ≤ 0).map tradePnl).sum|) then
          (if (s.trades.filter fun t => 0 < tradePnl t) = [] then 0
            else ((s.trades.filter fun t => 0 < tradePnl t).map tradePnl).sum) /
            (if (s.trades.filter fun t => tradePnl t ≤ 0) = [] then 1
              else |((s.trades.filter fun t => tradePnl t ≤ 0).map tradePnl).sum|)
        else 0) ∧
    ∀ h2 : s.equity_curve ≠ [], r.final_capital = (s.equity_curve.getLast h2).equity := by
  have hne := metrics_ok_curve_ne_nil p s r hok
  unfold calculate_performance_metrics at hok
  rw [dif_neg hne] at hok
  injection hok with h
  subst h
  exact ⟨rfl, rfl, rfl, rfl, rfl, rfl, fun h2 => rfl⟩

/-- Branch form of the per-bar body, for rewriting. -/
theorem process_bar_eq (p : BacktestParams) (s : EngineState) (row : MarketBar) :
    process_bar p s row =
      (if row.signal ≠ 0 then
        process_signal p { s with equity_curve := s.equity_curve ++ [equity_point s row] }
          row.signal row
      else { s with equity_curve := s.equity_curve ++ [equity_point s row] }) := rfl

/-- Ledger pnl sum over a ledger extended by one trade. -/
theorem sumPnl_concat (ts : List Trade) (t : Trade) :
    sumPnl (ts ++ [t]) = sumPnl ts + tradePnl t := by
  simp [sumPnl]

/-- Closing clears the position slot whenever a position was held. -/
theorem close_position_pos_none (p : BacktestParams) (s : EngineState) (row : MarketBar)
    (reason : String) (pos : Trade) (hpos : s.current_position = some pos) :
    (close_position p s row reason).current_position = none := by
  unfold close_position
  rw [hpos]

/-- Effect of closing a long on the ledger pnl sum. -/
theorem sumPnl_close_long (p : BacktestParams) (s : EngineState) (row : MarketBar)
    (reason : String) (pos : Trade) (hpos : s.current_position = some pos)
    (hside : pos.side = "long") :
    sumPnl (close_position p s row reason).trades =
      sumPnl s.trades + ((row.close * (1 - p.slippage) - pos.entry_price) * pos.quantity -
        row.close * (1 - p.slippage) * pos.quantity * p.commission) := by
  rw [close_position_long p s row reason pos hpos hside]
  rw [show ({ s with
      capital := s.capital +
        ((row.close * (1 - p.slippage) - pos.entry_price) * pos.quantity -
          row.close * (1 - p.slippage) * pos.quantity * p.commission)
      trades := s.trades ++
        [{ pos with
            exit_time := some row.timestamp
            exit_price := some (row.close * (1 - p.slippage))
            pnl := some ((row.close * (1 - p.slippage) - pos.entry_price) * pos.quantity -
              row.close * (1 - p.slippage) * pos.quantity * p.commission)
            return_pct := some
              (((row.close * (1 - p.slippage) - pos.entry_price) * pos.quantity -
                row.close * (1 - p.slippage) * pos.quantity * p.commission) /
                (pos.entry_price * pos.quantity))
            commission_paid := pos.commission_paid +
              row.close * (1 - p.slippage) * pos.quantity * p.commission
            status := "closed" }]
      current_position := none } : EngineState).trades = s.trades ++
        [{ pos with
            exit_time := some row.timestamp
            exit_price := some (row.close * (1 - p.slippage))
            pnl := some ((row.close * (1 - p.slippage) - pos.entry_price) * pos.quantity -
              row.close * (1 - p.slippage) * pos.quantity * p.commission)
            return_pct := some
              (((row.close * (1 - p.slippage) - pos.entry_price) * pos.quantity -
                row.close * (1 - p.slippage) * pos.quantity * p.commission) /
                (pos.entry_price * pos.quantity))
            commission_paid := pos.commission_paid +
              row.close * (1 - p.slippage) * pos.quantity * p.commission
            status := "closed" }] from rfl]
  rw [sumPnl_concat]
  simp [tradePnl]

/-- Equity of a flat state is its capital. -/
theorem calculate_current_equity_none (s : EngineState) (row : MarketBar)
    (h : s.current_position = none) : calculate_current_equity s row = s.capital := by
  unfold calculate_current_equity
  rw [h]

/-- Equity of a state holding a non-short position. -/
theorem calculate_current_equity_long (s : EngineState) (row : MarketBar) (pos : Trade)
    (h : s.current_position = some pos) (hside : pos.side ≠ "short") :
    calculate_current_equity s row = s.capital + (row.close - pos.entry_price) * pos.quantity := by
  unfold calculate_current_equity
  rw [h]
  simp [hside]

/-- With zero commission and zero slippage, the equity recorded on the
last bar (which becomes final_capital) equals initial capital plus the
total pnl of the completed run, end-of-period close included: the only
cash effect the last recorded point misses is fee-sized, and there are
no fees. -/
theorem last_bar_equity_zero_fees (p : BacktestParams) (bs : List MarketBar) (b : MarketBar)
    (hc : p.commission = 0) (hs : p.slippage = 0) :
    calculate_current_equity (bs.foldl (process_bar p) (initState p)) b =
      p.initial_capital + sumPnl (run_backtest_simulation p (bs ++ [b])).trades := by
  have hinv := stateInv_fold p bs
  have hcap := capital_fold_zero_commission p hc bs
  rw [run_concat]
  generalize hmid : bs.foldl (process_bar p) (initState p) = mid at hinv hcap ⊢
  rw [process_bar_eq]
  set s1 : EngineState :=
    { mid with equity_curve := mid.equity_curve ++ [equity_point mid b] } with hs1
  have hs1pos : s1.current_position = mid.current_position := by rw [hs1]
  have hs1cap : s1.capital = mid.capital := by rw [hs1]
  have hs1tr : s1.trades = mid.trades := by rw [hs1]
  by_cases hsig0 : b.signal = 0
  · rw [if_neg (not_not_intro hsig0)]
    cases hp : mid.current_position with
    | none =>
      rw [calculate_current_equity_none mid b hp]
      rw [if_neg (by simp [hs1pos, hp])]
      rw [hs1tr]
      exact hcap
    | some pos =>
      have hside := (hinv.2 pos hp).1
      have hns : pos.side ≠ "short" := by rw [hside]; decide
      rw [calculate_current_equity_long mid b pos hp hns]
      rw [if_pos (by simp [hs1pos, hp])]
      rw [sumPnl_close_long p s1 b "end_of_period" pos (by simp [hs1pos, hp]) hside]
      rw [hs1tr, hcap, hc, hs]
      ring
  · rcases lt_trichotomy b.signal 0 with hlt | heq | hgt
    · -- sell signal on the last bar
      rw [if_pos hsig0]
      cases hp : mid.current_position with
      | none =>
        rw [calculate_current_equity_none mid b hp]
        rw [process_signal_sell_flat p s1 b.signal b (by simp [hs1pos, hp]) hlt]
        rw [if_neg (by simp [hs1pos, hp])]
        rw [hs1tr]
        exact hcap
      | some pos =>
        have hside := (hinv.2 pos hp).1
        have hns : pos.side ≠ "short" := by rw [hside]; decide
        rw [calculate_current_equity_long mid b pos hp hns]
        have hs1p : s1.current_position = some pos := by simp [hs1pos, hp]
        have hstep : process_signal p s1 b.signal b = close_position p s1 b "signal_exit" := by
          unfold process_signal
          rw [if_neg (asymm hlt), if_pos hlt, hs1p]
          simp [hside]
        rw [hstep]
        rw [if_neg (by
          rw [close_position_pos_none p s1 b "signal_exit" pos hs1p]
          simp)]
        rw [sumPnl_close_long p s1 b "signal_exit" pos hs1p hside]
        rw [hs1tr, hcap, hc, hs]
        ring
    · exact absurd heq hsig0
    · -- buy signal on the last bar
      rw [if_pos hsig0]
      cases hp : mid.current_position with
      | none =>
        rw [calculate_current_equity_none mid b hp]
        have hs1p : s1.current_position = none := by simp [hs1pos, hp]
        have hstep : process_signal p s1 b.signal b =
            enter_long_position p s1 b.timestamp (b.close * (1 + p.slippage)) := by
          unfold process_signal
          rw [if_pos hgt, hs1p]
        rw [hstep]
        rw [if_pos (show (enter_long_position p s1 b.timestamp
          (b.close * (1 + p.slippage))).current_position.isSome = true from rfl)]
        rw [sumPnl_close_long p
          (enter_long_position p s1 b.timestamp (b.close * (1 + p.slippage))) b "end_of_period"
          { entry_time := b.timestamp, entry_price := b.close * (1 + p.slippage),
            quantity := (s1.capital * p.position_size -
              s1.capital * p.position_size * p.commission) / (b.close * (1 + p.slippage)),
            side := "long", commission_paid := s1.capital * p.position_size * p.commission,
            slippage_cost := s1.capital * p.position_size * p.slippage } rfl rfl]
        have htr : (enter_long_position p s1 b.timestamp
            (b.close * (1 + p.slippage))).trades = mid.trades := hs1tr
        rw [htr, hcap, hc, hs]
        dsimp only
        ring
      | some pos =>
        have hside := (hinv.2 pos hp).1
        have hns : pos.side ≠ "short" := by rw [hside]; decide
        rw [calculate_current_equity_long mid b pos hp hns]
        rw [process_signal_buy_held p s1 b.signal b pos (by simp [hs1pos, hp]) hns hgt]
        rw [if_pos (by simp [hs1pos, hp])]
        rw [sumPnl_close_long p s1 b "end_of_period" pos (by simp [hs1pos, hp]) hside]
        rw [hs1tr, hcap, hc, hs]
        ring

/-- Claim C4, counterexample: a signal of 1/2 — outside {-1, 0, +1} — is
NOT inert: processed from the flat initial state it opens a position and
changes the state, contradicting the claim that any such bar sees no
action. -/
theorem signal_half_acts_counterexample :
    (process_signal P1 (initState P1) (1 / 2) (testBar 0 100 (1 / 2))).current_position.isSome
      = true ∧
    process_signal P1 (initState P1) (1 / 2) (testBar 0 100 (1 / 2)) ≠ initState P1 := by
  constructor
  · with_unfolding_all decide
  · with_unfolding_all decide

/-- Claim C4, amended: the engine dispatches on the SIGN of the signal
value, not on membership in {-1, 0, +1}: two signals agreeing in sign
(both positive, both negative, or both zero) produce identical
transitions, so 0.5 acts exactly as a buy of +1 and -0.5 as a sell of -1;
only signal = 0 is inert. -/
theorem process_signal_sign_dispatch (p : BacktestParams) (s : EngineState) (row : MarketBar)
    (sig1 sig2 : ℚ) (hp : 0 < sig1 ↔ 0 < sig2) (hn : sig1 < 0 ↔ sig2 < 0) :
    process_signal p s sig1 row = process_signal p s sig2 row := by
  unfold process_signal
  by_cases h1 : 0 < sig1
  · rw [if_pos h1, if_pos (hp.mp h1)]
  · rw [if_neg h1, if_neg (fun h => h1 (hp.mpr h))]
    by_cases h2 : sig1 < 0
    · rw [if_pos h2, if_pos (hn.mp h2)]
    · rw [if_neg h2, if_neg (fun h => h2 (hn.mpr h))]

/-- Witness for the amended C4 theorem: signal 1/2 behaves exactly like
signal 1 at a concrete state and bar. -/
theorem process_signal_sign_dispatch_witness :
    process_signal P1 (initState P1) (1 / 2) (testBar 0 100 (1 / 2)) =
      process_signal P1 (initState P1) 1 (testBar 0 100 (1 / 2)) :=
  process_signal_sign_dispatch P1 (initState P1) (testBar 0 100 (1 / 2)) (1 / 2) 1
    (by norm_num) (by norm_num)

/-- Claim C5, counterexample: a series given in descending timestamp
order is neither rejected nor processed in the given order — the merge
step re-sorts it (its output differs from its input) and the engine then
completes the run normally, returning a result rather than aborting. -/
theorem unsorted_input_accepted_counterexample :
    merge_signals_and_prices B2 ≠ B2 ∧ (runEngine P1 B2).toOption.isSome = true := by
  constructor
  · with_unfolding_all decide
  · with_unfolding_all decide

/-- Claim C5, amended: the engine re-sorts the input ascending by
timestamp instead of aborting on unsorted input, and an empty input
series aborts the run with an error (the metrics pass finds an empty
equity curve after the vacuous per-bar loop), producing no results.
Non-finite prices are a float notion with no counterpart in this
rational model and are not validated anywhere in the code. -/
theorem engine_sorts_input_and_rejects_empty :
    (∀ data : List MarketBar, List.Sorted barLE (merge_signals_and_prices data)) ∧
    (∀ p : BacktestParams, runEngine p ([] : List MarketBar) =
      .error "No equity curve data available") := by
  constructor
  · intro data
    exact List.sorted_insertionSort barLE data
  · intro p
    rfl

/-- Claim C6: at every prefix of the bar sequence (and after the final
forced close) the engine holds at most one open position; a buy signal
while a long position is open returns the state unchanged (so the trade
ledger and capital are untouched), and a sell signal while flat returns
the state unchanged. -/
theorem single_position_and_noop_signals :
    (∀ (p : BacktestParams) (data : List MarketBar) (n : ℕ),
      open_position_count ((data.take n).foldl (process_bar p) (initState p)) ≤ 1) ∧
    (∀ (p : BacktestParams) (data : List MarketBar),
      open_position_count (run_backtest_simulation p data) ≤ 1) ∧
    (∀ (p : BacktestParams) (s : EngineState) (sig : ℚ) (row : MarketBar) (pos : Trade),
      s.current_position = some pos → pos.side = "long" → 0 < sig →
      process_signal p s sig row = s) ∧
    (∀ (p : BacktestParams) (s : EngineState) (sig : ℚ) (row : MarketBar),
      s.current_position = none → sig < 0 → process_signal p s sig row = s) := by
  refine ⟨?_, ?_, ?_, ?_⟩
  · intro p data n
    exact open_position_count_le_one _ (stateInv_fold p (data.take n))
  · intro p data
    exact open_position_count_le_one _ (stateInv_run p data)
  · intro p s sig row pos hpos hside hsig
    exact process_signal_buy_held p s sig row pos hpos (by rw [hside]; decide) hsig
  · intro p s sig row hpos hsig
    exact process_signal_sell_flat p s sig row hpos hsig

/-- Witness for C6 at concrete inputs: a two-bar run stays within one
open position at its prefixes and at the end, a buy on the held ST1
state is a no-op, and a sell on the flat initial state is a no-op. -/
theorem single_position_and_noop_signals_witness :
    open_position_count ((B1.take 2).foldl (process_bar P1) (initState P1)) ≤ 1 ∧
    open_position_count (run_backtest_simulation P1 B1) ≤ 1 ∧
    process_signal P1 ST1 1 b3 = ST1 ∧
    process_signal P1 (initState P1) (-1) b3 = initState P1 :=
  ⟨single_position_and_noop_signals.1 P1 B1 2,
   single_position_and_noop_signals.2.1 P1 B1,
   single_position_and_noop_signals.2.2.1 P1 ST1 1 b3 POS1 rfl rfl (by norm_num),
   single_position_and_noop_signals.2.2.2 P1 (initState P1) (-1) b3 rfl (by norm_num)⟩

/-- Claim C7: whenever metrics succeed and every ledger trade is a
winner (pnl > 0) with at least one trade present, the losing set is
empty, its sum is floored to 1, and profit_factor equals the sum of the
pnl of the winners — a finite rational by construction, never an infinity or
NaN; with an empty ledger profit_factor is 0 instead. -/
theorem profit_factor_no_losers (p : BacktestParams) (s : EngineState) (r : BacktestResults)
    (hok : calculate_performance_metrics p s = .ok r) :
    (s.trades ≠ [] → (∀ t ∈ s.trades, 0 < tradePnl t) →
      r.profit_factor = (s.trades.map tradePnl).sum) ∧
    (s.trades = [] → r.profit_factor = 0) := by
  obtain ⟨-, -, -, -, -, hpf, -⟩ := metrics_ok_fields p s r hok
  constructor
  · intro htrne hall
    have hwin : s.trades.filter (fun t => 0 < tradePnl t) = s.trades :=
      List.filter_eq_self.mpr (fun t ht => decide_eq_true (hall t ht))
    have hlos : s.trades.filter (fun t => tradePnl t ≤ 0) = [] :=
      List.filter_eq_nil_iff.mpr (fun t ht => by simp [not_le.mpr (hall t ht)])
    rw [hpf, if_neg htrne, hwin, hlos]
    norm_num [htrne]
  · intro hnil
    rw [hpf, if_pos hnil]

/-- Witness for C7: the single-winner ledger of SW yields profit_factor
equal to its total winning pnl, and the empty ledger of SE yields 0. -/
theorem profit_factor_no_losers_witness :
    RW.profit_factor = (SW.trades.map tradePnl).sum ∧ RE.profit_factor = 0 :=
  ⟨(profit_factor_no_losers P1 SW RW (by
      norm_num [RW, calculate_performance_metrics, expandingMax, listMin,
        calculate_max_drawdown_duration, tradePnl, Except.toOption, List.cons_ne_nil,
        Option.get_some, P1, SW, TW])).1
    (by simp [SW]) (by
      intro t ht
      simp only [SW, List.mem_singleton] at ht
      rw [ht]
      norm_num [tradePnl, TW]),
   (profit_factor_no_losers P1 SE RE (by
      norm_num [RE, calculate_performance_metrics, expandingMax, listMin,
        calculate_max_drawdown_duration, tradePnl, Except.toOption, List.cons_ne_nil,
        Option.get_some, P1, SE])).2 rfl⟩

/-- Claim C10: a closed trade with pnl exactly 0 counts as a loser: it
is excluded from the win_rate numerator (which counts only pnl > 0), and
it makes the losing set non-empty, so when every non-winner has pnl
exactly 0 and at least one exists, the sum over the losers is 0, the floor-to-1
branch is not taken, and profit_factor is 0 even when winners exist. -/
theorem zero_pnl_trades_count_as_losses (p : BacktestParams) (s : EngineState)
    (r : BacktestResults) (hok : calculate_performance_metrics p s = .ok r)
    (hnn : ∀ t ∈ s.trades, 0 ≤ tradePnl t) (hz : ∃ t ∈ s.trades, tradePnl t = 0) :
    r.profit_factor = 0 ∧
    r.win_rate = ((s.trades.filter fun t => 0 < tradePnl t).length : ℚ) /
      (s.trades.length : ℚ) := by
  obtain ⟨-, -, -, -, hwr, hpf, -⟩ := metrics_ok_fields p s r hok
  obtain ⟨t0, ht0, hpz⟩ := hz
  have htrne : s.trades ≠ [] := List.ne_nil_of_mem ht0
  have hlosne : s.trades.filter (fun t => tradePnl t ≤ 0) ≠ [] := by
    apply List.ne_nil_of_mem (a := t0)
    exact List.mem_filter.mpr ⟨ht0, by simp [hpz]⟩
  have hsum : ((s.trades.filter fun t => tradePnl t ≤ 0).map tradePnl).sum = 0 := by
    apply List.sum_eq_zero
    intro x hx
    obtain ⟨t, htf, rfl⟩ := List.mem_map.mp hx
    have h1 := List.mem_filter.mp htf
    have h2 : tradePnl t ≤ 0 := by simpa using h1.2
    exact le_antisymm h2 (hnn t h1.1)
  constructor
  · rw [hpf, if_neg htrne, if_neg hlosne, hsum, abs_zero]
    norm_num
  · rw [hwr, if_neg htrne]

/-- Witness for C10: the ledger holding one winner and one break-even
trade has profit_factor 0 and win_rate counting only the winner. -/
theorem zero_pnl_trades_count_as_losses_witness :
    RZ.profit_factor = 0 ∧
    RZ.win_rate = ((SZ.trades.filter fun t => 0 < tradePnl t).length : ℚ) /
      (SZ.trades.length : ℚ) :=
  zero_pnl_trades_count_as_losses P1 SZ RZ (by
      norm_num [RZ, calculate_performance_metrics, expandingMax, listMin,
        calculate_max_drawdown_duration, tradePnl, Except.toOption, List.cons_ne_nil,
        Option.get_some, P1, SZ, TW, TZ])
    (by
      intro t ht
      simp only [SZ, List.mem_cons, List.not_mem_nil, or_false] at ht
      rcases ht with h | h <;> rw [h] <;> norm_num [tradePnl, TW, TZ])
    ⟨TZ, by simp [SZ], by norm_num [tradePnl, TZ]⟩

/-- Claim C2, counterexample: in the concrete P1 run on B1 the closed
trade has pnl −900, while the claimed formula — gross P&L minus BOTH
commissions (commission_paid = entry + exit) — gives −1900: the recorded
pnl is not net of the entry commission. -/
theorem trade_pnl_both_commissions_counterexample :
    ((run_backtest_simulation P1 B1).trades.map
      (fun t => (t.pnl, (t.exit_price.getD 0 - t.entry_price) * t.quantity - t.commission_paid)))
      = [(some (-900), -1900)] ∧ some (-1900 : ℚ) ≠ some (-900 : ℚ) := by
  constructor
  · norm_num [run_backtest_simulation, process_bar, process_signal, enter_long_position,
      close_position, calculate_current_equity, calculate_current_drawdown, equity_point,
      initState, P1, B1, testBar]
  · simp

/-- Claim C2, amended: for every closed long Trade the recorded pnl is
(exit_price − entry_price) * quantity minus the EXIT commission only —
the entry commission, deducted from capital at entry and already counted
in commission_paid, is not subtracted again — and return_pct is that pnl
divided by entry_price * quantity. -/
theorem trade_pnl_net_of_exit_commission (p : BacktestParams) (s : EngineState)
    (row : MarketBar) (reason : String) (pos : Trade)
    (hpos : s.current_position = some pos) (hside : pos.side = "long") :
    ((close_position p s row reason).trades.getLast?).map
        (fun t => (t.pnl, t.return_pct, t.exit_price, t.commission_paid)) =
      some (some ((row.close * (1 - p.slippage) - pos.entry_price) * pos.quantity -
              row.close * (1 - p.slippage) * pos.quantity * p.commission),
            some (((row.close * (1 - p.slippage) - pos.entry_price) * pos.quantity -
              row.close * (1 - p.slippage) * pos.quantity * p.commission) /
              (pos.entry_price * pos.quantity)),
            some (row.close * (1 - p.slippage)),
            pos.commission_paid + row.close * (1 - p.slippage) * pos.quantity * p.commission) := by
  rw [close_position_long p s row reason pos hpos hside]
  simp [List.getLast?_concat]

/-- Witness for the amended C2 theorem at the concrete held state ST1. -/
theorem trade_pnl_net_of_exit_commission_witness :
    ((close_position P1 ST1 b3 "signal_exit").trades.getLast?).map
        (fun t => (t.pnl, t.return_pct, t.exit_price, t.commission_paid)) =
      some (some ((b3.close * (1 - P1.slippage) - POS1.entry_price) * POS1.quantity -
              b3.close * (1 - P1.slippage) * POS1.quantity * P1.commission),
            some (((b3.close * (1 - P1.slippage) - POS1.entry_price) * POS1.quantity -
              b3.close * (1 - P1.slippage) * POS1.quantity * P1.commission) /
              (POS1.entry_price * POS1.quantity)),
            some (b3.close * (1 - P1.slippage)),
            POS1.commission_paid + b3.close * (1 - P1.slippage) * POS1.quantity * P1.commission) :=
  trade_pnl_net_of_exit_commission P1 ST1 b3 "signal_exit" POS1 rfl rfl

/-- The equity curve of a run over bars ++ [b]: the curve of the fold plus
the point recorded at b (the force close does not touch the curve). -/
theorem run_concat_equity_curve (p : BacktestParams) (bs : List MarketBar) (b : MarketBar) :
    (run_backtest_simulation p (bs ++ [b])).equity_curve =
      (bs.foldl (process_bar p) (initState p)).equity_curve ++
        [equity_point (bs.foldl (process_bar p) (initState p)) b] := by
  rw [run_concat]
  split
  · rw [close_position_equity_curve, process_bar_equity_curve]
  · rw [process_bar_equity_curve]

/-- Claim C1, counterexample: with 10 percent commission a buy-then-sell
run reports final_capital 9000 while initial_capital plus the ledger pnl
sum is 9100 — the conservation identity fails on the code because trade
pnl excludes the entry commission and final_capital is the last recorded
equity point, which lags the cash by one bar. -/
theorem capital_conservation_counterexample :
    (runEngine P1 B1).toOption.map
      (fun r => (r.final_capital, P1.initial_capital + sumPnl r.trades)) = some (9000, 9100) ∧
    (9000 : ℚ) ≠ 9100 := by
  constructor
  · norm_num [runEngine, merge_signals_and_prices, List.insertionSort, List.orderedInsert,
      barLE, run_backtest_simulation, process_bar, process_signal, enter_long_position,
      close_position, calculate_current_equity, calculate_current_drawdown, equity_point,
      initState, calculate_performance_metrics, expandingMax, listMin,
      calculate_max_drawdown_duration, tradePnl, sumPnl, Except.toOption, List.cons_ne_nil,
      Option.get_some, P1, B1, testBar]
  · norm_num

/-- Claim C1, amended: capital conservation holds exactly in the
fee-free configuration: when commission = 0 and slippage = 0, every
completed run reports final_capital = initial_capital + sum of trade
pnl.  With positive fees the identity fails (see the counterexample):
pnl is net of the exit commission only, the entry commission is deducted
from capital directly, and final_capital is the last equity point,
recorded before the trades of the final bar settle. -/
theorem capital_conservation_zero_fees (p : BacktestParams) (data : List MarketBar)
    (r : BacktestResults) (hc : p.commission = 0) (hs : p.slippage = 0)
    (hok : runEngine p data = .ok r) :
    r.final_capital = p.initial_capital + sumPnl r.trades := by
  unfold runEngine at hok
  have hne := metrics_ok_curve_ne_nil _ _ _ hok
  obtain ⟨htr, -, -, -, -, -, hfc⟩ := metrics_ok_fields _ _ _ hok
  rcases List.eq_nil_or_concat (merge_signals_and_prices data) with hnil | ⟨bs, b, hbs⟩
  · rw [hnil] at hne
    exact absurd rfl hne
  · rw [List.concat_eq_append] at hbs
    rw [hbs] at hne hfc htr
    have h2 : (run_backtest_simulation p (bs ++ [b])).equity_curve.getLast? =
        some (equity_point (bs.foldl (process_bar p) (initState p)) b) := by
      rw [run_concat_equity_curve p bs b, List.getLast?_concat]
    have h1 := List.getLast?_eq_getLast
      (run_backtest_simulation p (bs ++ [b])).equity_curve hne
    rw [h1] at h2
    rw [hfc hne, Option.some.inj h2, htr]
    exact last_bar_equity_zero_fees p bs b hc hs

/-- Witness for the amended C1 theorem: the fee-free buy-then-sell run
on B1 conserves capital exactly. -/
theorem capital_conservation_zero_fees_witness :
    R0.final_capital = P0.initial_capital + sumPnl R0.trades :=
  capital_conservation_zero_fees P0 B1 R0 rfl rfl (by
    norm_num [R0, runEngine, merge_signals_and_prices, List.insertionSort, List.orderedInsert,
      barLE, run_backtest_simulation, process_bar, process_signal, enter_long_position,
      close_position, calculate_current_equity, calculate_current_drawdown, equity_point,
      initState, calculate_performance_metrics, expandingMax, listMin,
      calculate_max_drawdown_duration, tradePnl, Except.toOption, List.cons_ne_nil,
      Option.get_some, P0, B1, testBar])

/-- Claim C3, counterexample: in the concrete run that ends with a live
position, the force-closed final trade carries close_reason none — the
Trade record of the code has no close_reason field and the reason string
"end_of_period" is only printed, never stored — contradicting the
claimed close_reason == "end_of_period". -/
theorem end_of_period_close_reason_counterexample :
    ((run_backtest_simulation P1 B3).trades.getLast?).map (fun t => t.close_reason) =
      some none ∧
    some (none : Option String) ≠ some (some "end_of_period") := by
  constructor
  · norm_num [run_backtest_simulation, process_bar, process_signal, enter_long_position,
      close_position, calculate_current_equity, calculate_current_drawdown, equity_point,
      initState, P1, B3, BS3, b3, testBar]
  · simp

/-- Claim C3, amended: a position still live after the last bar IS
force-closed against the close price of the last bar (slippage applied
against the long side) and the resulting final Trade has exit_time equal
to the timestamp of the last bar and status closed; but no close_reason is
recorded on it — the Trade model has no such field, the reason string
"end_of_period" being used only in a log line — so its close_reason
stays none rather than "end_of_period". -/
theorem end_of_period_forced_close (p : BacktestParams) (bs : List MarketBar) (b : MarketBar)
    (pos : Trade)
    (hpos : ((bs ++ [b]).foldl (process_bar p) (initState p)).current_position = some pos) :
    ((run_backtest_simulation p (bs ++ [b])).trades.getLast?).map
        (fun t => (t.exit_time, t.exit_price, t.status, t.close_reason)) =
      some (some b.timestamp, some (b.close * (1 - p.slippage)), "closed", none) := by
  obtain ⟨hside, hcr⟩ := (stateInv_fold p (bs ++ [b])).2 pos hpos
  have hpos2 : (process_bar p (bs.foldl (process_bar p) (initState p)) b).current_position
      = some pos := by
    rw [List.foldl_append] at hpos
    exact hpos
  rw [run_concat, if_pos (by rw [hpos2]; rfl)]
  rw [close_position_long p _ b "end_of_period" pos hpos2 hside]
  simp [List.getLast?_concat, hcr]

/-- Witness for the amended C3 theorem at the concrete one-buy run. -/
theorem end_of_period_forced_close_witness :
    ((run_backtest_simulation P1 (BS3 ++ [b3])).trades.getLast?).map
        (fun t => (t.exit_time, t.exit_price, t.status, t.close_reason)) =
      some (some b3.timestamp, some (b3.close * (1 - P1.slippage)), "closed", none) :=
  end_of_period_forced_close P1 BS3 b3 POS1 (by with_unfolding_all decide)

/-- Claim C8: for every successful run the reported max_drawdown equals
the independent recomputation from the spec — the absolute value of the
minimum, over the equity series, of (equity − running max) / running
max — and also equals the maximum of the per-point drawdown values
stored in the equity curve (the first stored drawdown is always 0, so
folding max from 0 computes that maximum): the two computations agree. -/
theorem max_drawdown_two_computations_agree (p : BacktestParams) (data : List MarketBar)
    (r : BacktestResults) (hok : runEngine p data = .ok r) :
    r.max_drawdown = specMaxDrawdown (r.equity_curve.map fun pt => pt.equity) ∧
    r.max_drawdown = (r.equity_curve.map fun pt => pt.drawdown).foldl max 0 := by
  unfold runEngine at hok
  have hne := metrics_ok_curve_ne_nil _ _ _ hok
  obtain ⟨-, hcur, hmd, -, -, -, -⟩ := metrics_ok_fields _ _ _ hok
  constructor
  · rw [hmd, hcur]
  · rw [hmd, hcur]
    have hci := curveInv_run p (merge_signals_and_prices data)
    unfold CurveInv at hci
    rw [hci]
    exact specMaxDrawdown_eq_stored _ (fun h => hne (List.map_eq_nil_iff.mp h))

/-- Witness for C8 on the concrete B3 run. -/
theorem max_drawdown_two_computations_agree_witness :
    R3.max_drawdown = specMaxDrawdown (R3.equity_curve.map fun pt => pt.equity) ∧
    R3.max_drawdown = (R3.equity_curve.map fun pt => pt.drawdown).foldl max 0 :=
  max_drawdown_two_computations_agree P1 B3 R3 (by
    norm_num [R3, runEngine, merge_signals_and_prices, List.insertionSort, List.orderedInsert,
      barLE, run_backtest_simulation, process_bar, process_signal, enter_long_position,
      close_position, calculate_current_equity, calculate_current_drawdown, equity_point,
      initState, calculate_performance_metrics, expandingMax, listMin,
      calculate_max_drawdown_duration, tradePnl, Except.toOption, List.cons_ne_nil,
      Option.get_some, P1, B3, BS3, b3, testBar])

/-- Claim C9: the equity point of each bar is recorded BEFORE the
signal of that bar is processed, so the cash effects of a trade reach the curve only at
the next bar; consequently, for a run that still holds a long going into
its final bar (no sell arriving), the reported final_capital — the last
equity point — exceeds the post-run capital of the engine by exactly the
exit commission plus exit slippage of the end-of-period close, and in
particular differs from it whenever commission > 0. -/
theorem final_equity_excludes_end_close_costs (p : BacktestParams) (bs : List MarketBar)
    (b : MarketBar) (r : BacktestResults) (pos : Trade)
    (hpos : (bs.foldl (process_bar p) (initState p)).current_position = some pos)
    (hsig : 0 ≤ b.signal) (hcomm : 0 < p.commission) (hsl0 : 0 ≤ p.slippage)
    (hsl1 : p.slippage ≤ 1) (hclose : 0 < b.close) (hq : 0 < pos.quantity)
    (hok : calculate_performance_metrics p (run_backtest_simulation p (bs ++ [b])) = .ok r) :
    r.final_capital = (run_backtest_simulation p (bs ++ [b])).capital +
      pos.quantity * b.close * (p.slippage + p.commission * (1 - p.slippage)) ∧
    (run_backtest_simulation p (bs ++ [b])).capital < r.final_capital := by
  obtain ⟨hside, -⟩ := (stateInv_fold p bs).2 pos hpos
  have hns : pos.side ≠ "short" := by rw [hside]; decide
  have hne := metrics_ok_curve_ne_nil _ _ _ hok
  obtain ⟨-, -, -, -, -, -, hfc⟩ := metrics_ok_fields _ _ _ hok
  set mid := bs.foldl (process_bar p) (initState p) with hmid
  have hafter : process_bar p mid b =
      ({ mid with equity_curve := mid.equity_curve ++ [equity_point mid b] } : EngineState) := by
    rw [process_bar_eq]
    by_cases h0 : b.signal = 0
    · rw [if_neg (not_not_intro h0)]
    · rw [if_pos h0]
      exact process_signal_buy_held p _ b.signal b pos hpos hns
        (lt_of_le_of_ne hsig (Ne.symm h0))
  have hrun : run_backtest_simulation p (bs ++ [b]) =
      close_position p
        ({ mid with equity_curve := mid.equity_curve ++ [equity_point mid b] } : EngineState)
        b "end_of_period" := by
    rw [run_concat, ← hmid, hafter]
    rw [if_pos (by simp [hpos])]
  have hcurve : (run_backtest_simulation p (bs ++ [b])).equity_curve =
      mid.equity_curve ++ [equity_point mid b] := by
    rw [hrun, close_position_equity_curve]
  have h2 : (run_backtest_simulation p (bs ++ [b])).equity_curve.getLast? =
      some (equity_point mid b) := by
    rw [hcurve, List.getLast?_concat]
  have h1 := List.getLast?_eq_getLast (run_backtest_simulation p (bs ++ [b])).equity_curve hne
  rw [h1] at h2
  have hfc2 : r.final_capital = mid.capital + (b.close - pos.entry_price) * pos.quantity := by
    rw [hfc hne, Option.some.inj h2]
    exact calculate_current_equity_long mid b pos hpos hns
  have hcap2 : (run_backtest_simulation p (bs ++ [b])).capital =
      mid.capital + ((b.close * (1 - p.slippage) - pos.entry_price) * pos.quantity -
        b.close * (1 - p.slippage) * pos.quantity * p.commission) := by
    rw [hrun, close_position_long p
      ({ mid with equity_curve := mid.equity_curve ++ [equity_point mid b] } : EngineState)
      b "end_of_period" pos hpos hside]
  have hfactor : 0 < p.slippage + p.commission * (1 - p.slippage) := by
    rcases eq_or_lt_of_le hsl0 with h | h
    · rw [← h]
      simpa using hcomm
    · exact add_pos_of_pos_of_nonneg h (mul_nonneg hcomm.le (by linarith))
  constructor
  · rw [hfc2, hcap2]
    ring
  · rw [hfc2, hcap2]
    have hkey := mul_pos (mul_pos hq hclose) hfactor
    have hid : (b.close - pos.entry_price) * pos.quantity -
        (((b.close * (1 - p.slippage) - pos.entry_price) * pos.quantity) -
          b.close * (1 - p.slippage) * pos.quantity * p.commission) =
        pos.quantity * b.close * (p.slippage + p.commission * (1 - p.slippage)) := by
      ring
    linarith [hkey, hid]

/-- Witness for C9 on the concrete one-buy run: final_capital 9000
exceeds the post-run capital 8100 by the 900 exit commission. -/
theorem final_equity_excludes_end_close_costs_witness :
    R3.final_capital = (run_backtest_simulation P1 (BS3 ++ [b3])).capital +
      POS1.quantity * b3.close * (P1.slippage + P1.commission * (1 - P1.slippage)) ∧
    (run_backtest_simulation P1 (BS3 ++ [b3])).capital < R3.final_capital :=
  final_equity_excludes_end_close_costs P1 BS3 b3 R3 POS1
    (by with_unfolding_all decide)
    (by norm_num [b3, testBar])
    (by norm_num [P1])
    (by norm_num [P1])
    (by norm_num [P1])
    (by norm_num [b3, testBar])
    (by norm_num [POS1])
    (by norm_num [R3, runEngine, merge_signals_and_prices, List.insertionSort,
      List.orderedInsert, barLE, run_backtest_simulation, process_bar, process_signal,
      enter_long_position, close_position, calculate_current_equity,
      calculate_current_drawdown, equity_point, initState, calculate_performance_metrics,
      expandingMax, listMin, calculate_max_drawdown_duration, tradePnl, Except.toOption,
      List.cons_ne_nil, Option.get_some, P1, B3, BS3, b3, testBar])

end EdgeQL
